import Mathlib

/-!
Shallow embedding of the restart subsystem of PRIMME (PRIMMESRC/DSRC/restart_d.c)
and of the SVDS front end (PRIMMESRC/SVDS/ZSRC/primme_svds_z.c), together with
theorems settling the frozen claims C1-C10 about this code.

Conventions of the embedding:
- C double arrays become functions `Nat -> Rat` (exact arithmetic) and matrices
  become `Nat -> Nat -> Rat` in column access order `A i j` = row i, column j.
- C int scalars that can go negative are embedded as `Int`; loop bounds and
  array indices are `Nat`.
- External kernels that are not part of the two source files (solve_H, ortho,
  permute_vecs, qsort, sqrt, ...) are modelled from the spec at their
  interfaces, as documented at each definition.
-/

set_option maxHeartbeats 1000000

/-- Convergence flag of a Ritz pair. Modelled from the spec: const.h is not part
of the two source files; the spec data model gives flags[i] in
UNCONVERGED, CONVERGED, LOCKED. -/
inductive PFlag where
  | UNCONVERGED
  | CONVERGED
  | LOCKED
deriving DecidableEq, Repr

/-- Error code documented in restart_d.c (line 157): -2, restart_H failed. -/
def RESTART_H_FAILURE : Int := -2

/-- Error code documented in restart_d.c (line 158): -4, factorization of M failed. -/
def UDUDECOMPOSE_FAILURE : Int := -4

/-- Error code documented in primme_svds_z.c (line 68): -1, failure to allocate
workspace. -/
def ALLOCATE_WORKSPACE_FAILURE : Int := -1

/-! ### primme_svds_z.c: zprimme_svds control flow (C6) -/

/-- Return value of zprimme_svds (primme_svds_z.c lines 100-138). The results of
the sub-calls primme_svds_check_input, allocate_workspace_svds and the two
zprimme stage calls are passed in as parameters; stage2None says whether
methodStage2 == primme_svds_op_none. -/
def zprimme_svds (checkInputRet allocRet stage1Ret : Int) (stage2None : Bool)
    (stage2Ret : Int) : Int :=
  if checkInputRet ≠ 0 then checkInputRet
  else if allocRet ≠ 0 then ALLOCATE_WORKSPACE_FAILURE
  else if stage1Ret ≠ 0 then stage1Ret - 100
  else if stage2None then 0
  else if stage2Ret ≠ 0 then stage2Ret - 200
  else 0

/-! ### primme_svds_z.c: second stage target shifts (C9) -/

/-- Shift list built by copy_last_params_from_svds for the second stage when the
target is primme_svds_smallest and no user shifts exist (primme_svds_z.c lines
254-281): entries max(svals[i]-rnorms[i], aNorm*machEps) for i < initSize and
aNorm*machEps for initSize <= i < numSvals, then sorted ascending. The qsort
call with comp_double (line 278, libc) is modelled from the spec: an ascending
sort; anormEps stands for aNorm*machEps. -/
def stage2TargetShifts (svals rnorms : Nat → ℚ) (initSize numSvals : Nat)
    (anormEps : ℚ) : List ℚ :=
  List.mergeSort ((List.range numSvals).map
    (fun i => if i < initSize then max (svals i - rnorms i) anormEps else anormEps))

/-! ### primme_svds_z.c: singular value write back (C10) -/

/-- Write back of singular values in copy_last_params_to_svds (primme_svds_z.c
lines 470-474): svals[i] = sqrt(max(0.0, svals[i])) for i < initSize when the
first stage operator is AtA or AAt. The libm sqrt kernel is out of scope and is
passed as the parameter s. -/
def copy_svals_back (s : ℚ → ℚ) (svals : Nat → ℚ) (initSize : Nat) : Nat → ℚ :=
  fun i => if i < initSize then s (max 0 (svals i)) else svals i

/-! ### restart_d.c: reset_flags and the dtr flag handling (C8) -/

/-- reset_flags_dprimme (restart_d.c lines 1525-1533). The loop runs i = 0..last
inclusive and never reads the parameter first. -/
def reset_flags_dprimme (flags : Nat → PFlag) (first last : Nat) : Nat → PFlag :=
  fun i => if i ≤ last then PFlag.UNCONVERGED else flags i

/-- PFlag copy in dtr_dprimme (restart_d.c lines 1497-1499):
flags[lOpt+i] = flags[basisSize-rOpt+i] for 0 <= i < rOpt. -/
def dtr_copy_flags (flags : Nat → PFlag) (lOpt rOpt basisSize : Nat) : Nat → PFlag :=
  fun i => if lOpt ≤ i ∧ i < lOpt + rOpt then flags (basisSize - rOpt + (i - lOpt))
    else flags i

/-- Flags at exit of dtr_dprimme (restart_d.c line 1506): the copy step followed
by reset_flags_dprimme(flags, restartSize, maxBasisSize) with
restartSize = lOpt + rOpt. -/
def dtr_final_flags (flags : Nat → PFlag) (lOpt rOpt basisSize maxBasisSize : Nat) :
    Nat → PFlag :=
  reset_flags_dprimme (dtr_copy_flags flags lOpt rOpt basisSize) (lOpt + rOpt)
    maxBasisSize

/-! ### restart_d.c: drift re-check in restart_soft_locking_dprimme (C5) -/

/-- Executable absolute value on the rationals, mirroring the libm fabs kernel
on finite values. -/
def fabs (x : ℚ) : ℚ := if x < 0 then -x else x

/-- PFlag drift re-check at entry of restart_soft_locking_dprimme (restart_d.c
lines 442-448): when basisSize + numOrthoConst < n, every i < numEvals whose
flag is not UNCONVERGED and with fabs(hVals[i]-evals[i]) > resNorms[i] is reset
to UNCONVERGED. -/
def driftResetFlags (flags : Nat → PFlag) (hVals evals resNorms : Nat → ℚ)
    (numEvals basisSize numOrthoConst n : Nat) : Nat → PFlag :=
  fun i =>
    if basisSize + numOrthoConst < n ∧ i < numEvals ∧ flags i ≠ PFlag.UNCONVERGED ∧
        resNorms i < fabs (hVals i - evals i) then
      PFlag.UNCONVERGED
    else flags i

/-! ### restart_d.c: scalar bookkeeping of restart_soft_locking_dprimme (C2, C7) -/

/-- Count of UNCONVERGED pairs among the leading arbitrary vectors
(restart_d.c lines 472-473): for (i = 0; i < numArbitraryVecs && i < restartSize;
i++) if flags[i] == UNCONVERGED numCandidates++. -/
def countUnconvArb (flags : Nat → PFlag) (numArbitraryVecs restartSizeIn : Int) : Int :=
  ((List.range (min numArbitraryVecs restartSizeIn).toNat).filter
    (fun i => flags i = PFlag.UNCONVERGED)).length

/-- Recount of converged pairs (restart_d.c lines 501-503): the number of
i < basisSize with flags[i] != UNCONVERGED and i < numEvals. -/
def countConverged (flags : Nat → PFlag) (basisSize numEvals : Int) : Int :=
  ((List.range basisSize.toNat).filter
    (fun i => flags i ≠ PFlag.UNCONVERGED ∧ (i : Int) < numEvals)).length

/-- Scalar state produced by restart_soft_locking_dprimme. ievSizeMid is the
value stored into *ievSize at line 477; ievSize is the value left in *ievSize
at return (0 on success, line 592). -/
structure SoftLockScalars where
  numPrevRetained : Int
  restartSize : Int
  ievSizeMid : Int
  numCandidates : Int
  indexOfPreviousVecs : Int
  leftIndex : Int
  numConverged : Int
  ievSize : Int
  ret : Int
deriving DecidableEq, Repr

/-- Scalar bookkeeping of restart_soft_locking_dprimme (restart_d.c lines
469-592), on flags already updated by the drift re-check. The two numerical
kernels ortho_coefficient_vectors_dprimme (line 523) and Num_update_VWXR_dprimme
(line 536) are external; they are summarised by their return codes orthoRet and
updateRet, and a nonzero code aborts the routine before *ievSize is cleared. -/
def restart_soft_locking_scalars (flags : Nat → PFlag)
    (restartSizeIn numPrevIn maxBasisSize maxBlockSize numEvals numConvergedIn
      numArbitraryVecs basisSize orthoRet updateRet : Int) : SoftLockScalars :=
  let numPrev := min maxBasisSize (restartSizeIn + numPrevIn) - restartSizeIn
  let nc0 := countUnconvArb flags numArbitraryVecs restartSizeIn
  let restartSize := restartSizeIn + numPrev
  let ievSizeMid := min (min maxBlockSize (numEvals - numConvergedIn + 1))
    (maxBasisSize - restartSize)
  let numCandidates := max ievSizeMid nc0
  let iopv := restartSize - numCandidates - numPrev
  let lft := restartSize - numCandidates
  let numConv := countConverged flags basisSize numEvals
  if orthoRet ≠ 0 then
    ⟨numPrev, restartSize, ievSizeMid, numCandidates, iopv, lft, numConv, ievSizeMid,
      orthoRet⟩
  else if updateRet ≠ 0 then
    ⟨numPrev, restartSize, ievSizeMid, numCandidates, iopv, lft, numConv, ievSizeMid,
      updateRet⟩
  else
    ⟨numPrev, restartSize, ievSizeMid, numCandidates, iopv, lft, numConv, 0, 0⟩

/-! ### restart_d.c: restart_dprimme coordinator (C1, C2) -/

/-- Restart size selection in restart_dprimme (restart_d.c lines 219-245),
returning the pair (restartSize, numPrevRetained) before the locking routine is
invoked. dtrRes stands for the value dtr_dprimme would return. -/
def restartSizeSelect (n basisSize numLocked numOrthoConst maxBasisSize
    maxBlockSize minRestartSize : Int) (schemeDtr : Bool) (dtrRes numPrevIn : Int) :
    Int × Int :=
  if basisSize + numLocked + numOrthoConst ≥ n then (basisSize, 0)
  else if basisSize ≤ maxBasisSize - maxBlockSize then (basisSize, numPrevIn)
  else if schemeDtr then (dtrRes, numPrevIn)
  else (min basisSize minRestartSize, numPrevIn)

/-- Value written into *restartSizeOutput by restart_dprimme on the soft-locking
success path (restart_d.c lines 251-289): the selected size after
restart_soft_locking_dprimme increased it by the retained previous vectors. -/
def restart_reported_size (flags : Nat → PFlag) (n basisSize numLocked
    numOrthoConst maxBasisSize maxBlockSize minRestartSize : Int) (schemeDtr : Bool)
    (dtrRes numPrevIn numEvals numConvergedIn numArbitraryVecs : Int) : Int :=
  (restart_soft_locking_scalars flags
    (restartSizeSelect n basisSize numLocked numOrthoConst maxBasisSize maxBlockSize
      minRestartSize schemeDtr dtrRes numPrevIn).1
    (restartSizeSelect n basisSize numLocked numOrthoConst maxBasisSize maxBlockSize
      minRestartSize schemeDtr dtrRes numPrevIn).2
    maxBasisSize maxBlockSize numEvals numConvergedIn numArbitraryVecs basisSize
    0 0).restartSize

/-- Error mapping of restart_projection_dprimme (restart_d.c lines 770-852) on
the solve path (H nonnull): projRet is the return of restart_RR or restart_qr,
useEvecsHat says whether the skew preconditioner block runs, and uduRet is the
return of UDUDecompose_dprimme. -/
def restart_projection_ret (projRet : Int) (useEvecsHat : Bool) (uduRet : Int) : Int :=
  if projRet ≠ 0 then RESTART_H_FAILURE
  else if useEvecsHat then (if uduRet ≠ 0 then UDUDECOMPOSE_FAILURE else 0) else 0

/-- Return value of restart_dprimme (restart_d.c lines 251-291). The result of
restart_projection_dprimme at line 282 is computed but never assigned or
inspected, so the function returns softRet when nonzero and otherwise 0,
whatever projectionRet is. -/
def restart_dprimme_ret (softRet projectionRet : Int) : Int :=
  if softRet ≠ 0 then softRet else 0

/-! ### restart_d.c: dtr_dprimme selection (C4) -/

/-- Candidate (l, r) pairs visited by the dtr_dprimme double loop (restart_d.c
lines 1458-1459), in loop order: lMin <= l < basisSize - numFree and
0 <= r < basisSize - l - numFree. -/
def dtrPairs (basisSize numFree lMin : Nat) : List (Nat × Nat) :=
  ((List.range (basisSize - numFree)).filter (fun l => lMin ≤ l)).flatMap
    (fun l => (List.range (basisSize - l - numFree)).map (fun r => (l, r)))

/-- One iteration of the dtr_dprimme selection (restart_d.c lines 1460-1471),
over exact rationals. The C comparison newVal > optVal of values
c * sqrt(q) with c = basisSize - l - r > 0 is modelled by comparing squares
(the state keeps optVal^2); a candidate whose ratio q is negative (sqrt of a
negative number, NaN in C, which never satisfies >) never updates. -/
def dtrStep (hVals : Nat → ℚ) (nu : ℚ) (basisSize maxBlockSize : Nat)
    (s : Nat × Nat × ℚ) (lr : Nat × Nat) : Nat × Nat × ℚ :=
  if (basisSize - lr.1 - lr.2) % maxBlockSize = 0 then
    let q := (nu - hVals (lr.1 + 1)) / (hVals (lr.1 + 1) - hVals (basisSize - 1 - lr.2))
    let newSq := ((basisSize - lr.1 - lr.2 : Nat) : ℚ) ^ 2 * q
    if 0 ≤ q ∧ s.2.2 < newSq then (lr.1, lr.2, newSq) else s
  else s

/-- Selection of (lOpt, rOpt) in dtr_dprimme (restart_d.c lines 1443-1476),
starting from the default (lMin, 0) with optVal = 0. nu is the Ritz value
hVals[iev[0]] targeted by the block. -/
def dtrSelect (hVals : Nat → ℚ) (nu : ℚ) (basisSize numFree maxBlockSize lMin : Nat) :
    Nat × Nat :=
  let s := (dtrPairs basisSize numFree lMin).foldl
    (dtrStep hVals nu basisSize maxBlockSize) (lMin, 0, 0)
  (s.1, s.2.1)

/-- Return value of dtr_dprimme (restart_d.c lines 1476 and 1507):
restartSize = lOpt + rOpt. -/
def dtr_dprimme (hVals : Nat → ℚ) (nu : ℚ) (basisSize numFree maxBlockSize lMin : Nat) :
    Nat :=
  (dtrSelect hVals nu basisSize numFree maxBlockSize lMin).1 +
    (dtrSelect hVals nu basisSize numFree maxBlockSize lMin).2

/-! ### restart_d.c: permutation machinery of restart_soft_locking_dprimme (C3) -/

/-- permute_vecs_dprimme on a vector (external kernel, modelled from the spec:
the permutation gathers, entry i of the result is entry perm i of the input;
this is the convention under which hVecsPerm, built as the inverse of
restartPerm, restores the primme.target ordering, spec section 8). Only the
first m entries are permuted. -/
def permute_vecs {α : Type} (x : Nat → α) (perm : Nat → Nat) (m : Nat) : Nat → α :=
  fun i => if i < m then x (perm i) else x i

/-- permute_vecs_dprimme on the columns of a matrix (external kernel, modelled
from the spec, same gather convention): column j of the result is column
perm j of the input, for the first m columns. -/
def permute_cols (A : Nat → Nat → ℚ) (perm : Nat → Nat) (m : Nat) : Nat → Nat → ℚ :=
  fun i j => if j < m then A i (perm j) else A i j

/-- One step of the restartPerm construction sweep (restart_d.c lines 487-497).
The state is (slot assignment, j = candidates placed, k = non-candidates
placed): an UNCONVERGED column i goes to slot left + j while j < numCandidates;
other columns go to slot k while k < left and to slot numCandidates + k after. -/
def restartPermStep (flags : Nat → PFlag) (numCandidates lft : Nat)
    (s : (Nat → Nat) × Nat × Nat) (i : Nat) : (Nat → Nat) × Nat × Nat :=
  if s.2.1 < numCandidates ∧ flags i = PFlag.UNCONVERGED then
    (Function.update s.1 (lft + s.2.1) i, s.2.1 + 1, s.2.2)
  else if s.2.2 < lft then
    (Function.update s.1 s.2.2 i, s.2.1, s.2.2 + 1)
  else
    (Function.update s.1 (numCandidates + s.2.2) i, s.2.1, s.2.2 + 1)

/-- restartPerm built by the sweep over the basisSize original columns
(restart_d.c lines 487-497); slots never written keep an identity default
(the C array is uninitialised there and such slots are not read). -/
def buildRestartPerm (flags : Nat → PFlag) (numCandidates lft basisSize : Nat) :
    Nat → Nat :=
  ((List.range basisSize).foldl (restartPermStep flags numCandidates lft)
    (fun i => i, 0, 0)).1

/-- hVecsPerm construction (restart_d.c lines 553-554):
hVecsPerm[restartPerm[i]] = i for i < basisSize; for several preimages the last
write wins, and unwritten entries keep an identity default. -/
def invPerm (perm : Nat → Nat) (m : Nat) : Nat → Nat :=
  fun j => (((List.range m).filter (fun k => perm k = j)).getLast?).getD j

/-- Arbitrary-vector shift applied to hVecsPerm (restart_d.c lines 566-578).
The counter j is re-initialised to 0 by the second for statement (line 572) and
never incremented inside it, so the condition reads hVecsPerm[i] < left and the
remap is (hVecsPerm[i] - iopv) % numPrev + iopv, the identity on
[iopv, iopv + numPrev). -/
def shiftArbitrary (sig : Nat → Nat) (restartSize iopv lft numPrev : Nat) :
    Nat → Nat :=
  fun i => if i < restartSize ∧ iopv ≤ sig i ∧ sig i < lft then
    (sig i - iopv) % numPrev + iopv
  else sig i

/-- Copy of previousHVecs into hVecs columns [iopv, iopv + numPrev)
(restart_d.c lines 520-521), over basisSize rows. -/
def insertPrevVecs (hVecs prev : Nat → Nat → ℚ) (iopv numPrev basisSize : Nat) :
    Nat → Nat → ℚ :=
  fun i j => if iopv ≤ j ∧ j < iopv + numPrev ∧ i < basisSize then prev i (j - iopv)
    else hVecs i j

/-! ### restart_d.c: restart_RR (C3) -/

/-- compute_submatrix_dprimme (external kernel, modelled from the spec, section
4.4.1: the inserted block is Xᴴ H X): entry (i, j) of Xᴴ H X with m the row
count of X, over the reals this is sum over a b of X a i * H a b * X b j. -/
def computeSubmatrix (X : Nat → Nat → ℚ) (H : Nat → Nat → ℚ) (m : Nat) :
    Nat → Nat → ℚ :=
  fun i j => ∑ a in Finset.range m, ∑ b in Finset.range m, X a i * H a b * X b j

/-- The H array after the writes of restart_RR (restart_d.c lines 948-974):
the block previousHVecsᴴ H previousHVecs at (iopv, iopv) (the previous vectors
sit in hVecs columns [iopv, iopv+p)), zeros and hVals[j] diagonal entries on
the upper triangle of the other columns j < restartSize, everything else (in
particular the strict lower triangle of the Hermitian storage) untouched. -/
def restartRR_H (Hold hVecsIn : Nat → Nat → ℚ) (hValsIn : Nat → ℚ)
    (basisSize restartSize iopv p : Nat) : Nat → Nat → ℚ :=
  fun i j =>
    if j < iopv ∧ i ≤ j then (if i = j then hValsIn j else 0)
    else if iopv ≤ j ∧ j < iopv + p ∧ i < iopv then 0
    else if iopv + p ≤ j ∧ j < restartSize ∧ i ≤ j then (if i = j then hValsIn j else 0)
    else if iopv ≤ i ∧ i < iopv + p ∧ iopv ≤ j ∧ j < iopv + p then
      computeSubmatrix (fun a b => hVecsIn a (iopv + b)) Hold basisSize (i - iopv)
        (j - iopv)
    else Hold i j

/-- The numPrevRetained x numPrevRetained block of the rebuilt H at
(iopv, iopv), as handed to solve_H by restart_RR (restart_d.c line 1006). -/
def rrBlock (Hold hVecsIn : Nat → Nat → ℚ) (hValsIn : Nat → ℚ)
    (basisSize restartSize iopv p : Nat) : Nat → Nat → ℚ :=
  fun i j => restartRR_H Hold hVecsIn hValsIn basisSize restartSize iopv p (iopv + i)
    (iopv + j)

/-- Search for orderedIndexOfPreviousVecs (restart_d.c lines 997-1002): the
first i < restartSize with hVecsPerm[i] = iopv, defaulting to restartSize. -/
def findOrdered (sig : Nat → Nat) (iopv restartSize : Nat) : Nat :=
  (((List.range restartSize).find? (fun i => sig i == iopv)).getD restartSize)

/-- Output state of restart_RR. -/
structure RROut where
  H : Nat → Nat → ℚ
  hVecs : Nat → Nat → ℚ
  hVals : Nat → ℚ

/-- restart_RR (restart_d.c lines 921-1021) on the solve path. solveH models the
external solve_H_dprimme kernel: given the block and its order p it returns the
p x p eigenvector matrix and the p eigenvalues, written into the diagonal block
of hVecs at orderedIndexOfPreviousVecs and into hVals there (lines 1005-1010).
Before that, hVecs is zeroed on its leading restartSize x restartSize square
with a 1 at row hVecsPerm[j] of column j (lines 981-986), and hVals is permuted
by hVecsPerm (line 989). -/
def restartRRModel
    (solveH : (Nat → Nat → ℚ) → Nat → ((Nat → Nat → ℚ) × (Nat → ℚ)))
    (Hold hVecsIn : Nat → Nat → ℚ) (hValsIn : Nat → ℚ) (sig : Nat → Nat)
    (basisSize restartSize iopv p : Nat) : RROut :=
  let H2 := restartRR_H Hold hVecsIn hValsIn basisSize restartSize iopv p
  let hVecs1 : Nat → Nat → ℚ := fun i j =>
    if j < restartSize then
      (if i = sig j then 1 else if i < restartSize then 0 else hVecsIn i j)
    else hVecsIn i j
  let hVals1 : Nat → ℚ := fun j => if j < restartSize then hValsIn (sig j) else hValsIn j
  let w := findOrdered sig iopv restartSize
  let XL := solveH (fun i j => H2 (iopv + i) (iopv + j)) p
  let hVecs2 : Nat → Nat → ℚ := fun i j =>
    if w ≤ i ∧ i < w + p ∧ w ≤ j ∧ j < w + p then XL.1 (i - w) (j - w) else hVecs1 i j
  let hVals2 : Nat → ℚ := fun j => if w ≤ j ∧ j < w + p then XL.2 (j - w) else hVals1 j
  ⟨H2, hVecs2, hVals2⟩

/-- Hermitian reading of the packed storage: restart_d.c maintains only the
upper triangle of H (all loops in restart_RR write i <= j), the matrix it
represents is the symmetric extension of that triangle. -/
def symmRep (H : Nat → Nat → ℚ) : Nat → Nat → ℚ :=
  fun i j => if i ≤ j then H i j else H j i

/-- Entry (i, j) of the product H * X truncated to the leading m x m square. -/
def matApplyEntry (H X : Nat → Nat → ℚ) (m i j : Nat) : ℚ :=
  ∑ k in Finset.range m, H i k * X k j

/-- Diagonalisation property claimed for the output of restart_RR: applying the
(Hermitian reading of the) rebuilt H to each output coefficient column
reproduces the column scaled by its output Ritz value. -/
def rrDiagonalises (out : RROut) (m : Nat) : Prop :=
  ∀ i j, i < m → j < m →
    matApplyEntry (symmRep out.H) out.hVecs m i j = out.hVals j * out.hVecs i j

/-- solve_H_dprimme instance for a 1 x 1 block (modelled from the spec: the
eigendecomposition of [b] is the eigenvector [1] with eigenvalue b). -/
def solve1x1 : (Nat → Nat → ℚ) → Nat → ((Nat → Nat → ℚ) × (Nat → ℚ)) :=
  fun B _ => (fun _ _ => 1, fun _ => B 0 0)

/-! ### Concrete state for the C3 counterexample.

A reachable soft-locking restart with basisSize = 4, maxBasisSize = 4,
maxBlockSize = 1, minRestartSize = 1 (the coordinator picks restartSize = 1),
numEvals = 2, one retained previous vector and flags
[UNCONVERGED, CONVERGED, UNCONVERGED, UNCONVERGED]: the unconverged column 0
becomes the candidate and is moved behind the previous vector, so hVecsPerm
does not fix the previous-vector window. -/

/-- Flags of the C3 counterexample state. -/
def c3flags : Nat → PFlag := fun i => if i = 1 then PFlag.CONVERGED else PFlag.UNCONVERGED

/-- Ritz values of the C3 counterexample state. -/
def c3hVals : Nat → ℚ := fun i => (i : ℚ) + 1

/-- Previous projected matrix H (diagonal, eigenbasis = identity) of the C3
counterexample state; symmetric, so its Hermitian reading is itself. -/
def c3Hold : Nat → Nat → ℚ := fun i j => if i = j ∧ i < 4 then (i : ℚ) + 1 else 0

/-- Coefficient eigenvectors of the C3 counterexample state (identity). -/
def c3hVecsIn : Nat → Nat → ℚ := fun i j => if i = j then 1 else 0

/-- The single retained previous coefficient vector e_2 of the C3 state; it is
already orthonormal against the kept columns, so the external
ortho_coefficient_vectors kernel (modelled from the spec: classical
Gram-Schmidt, which fixes an already orthonormal system) leaves hVecs as built. -/
def c3prev : Nat → Nat → ℚ := fun i j => if i = 2 ∧ j = 0 then 1 else 0

/-- Scalar outputs of the soft-locking restart on the C3 state. -/
def c3scal : SoftLockScalars :=
  restart_soft_locking_scalars c3flags 1 1 4 1 2 1 0 4 0 0

/-- restartPerm of the C3 state (numCandidates = 1, left = 1). -/
def c3perm : Nat → Nat :=
  buildRestartPerm c3flags 1 1 4

/-- hVecsPerm of the C3 state, after the (identity) arbitrary-vector shift. -/
def c3sig : Nat → Nat :=
  shiftArbitrary (invPerm c3perm 4) 2 0 1 1

/-- hVecs handed to restart_RR in the C3 state: permuted by restartPerm with the
previous vector inserted at column iopv = 0. -/
def c3hVecsMid : Nat → Nat → ℚ :=
  insertPrevVecs (permute_cols c3hVecsIn c3perm 4) c3prev 0 1 4

/-- hVals handed to restart_RR in the C3 state: permuted by restartPerm. -/
def c3hValsMid : Nat → ℚ :=
  permute_vecs c3hVals c3perm 4

/-- Output of restart_RR on the C3 state (restartSize = 2, iopv = 0,
numPrevRetained = 1). -/
def c3out : RROut :=
  restartRRModel solve1x1 c3Hold c3hVecsMid c3hValsMid c3sig 4 2 0 1

/-! ## Theorems -/

/-- C1 (code bug evidence): restart_projection_dprimme maps a failed projection
restart to RESTART_H_FAILURE and a failed factorisation of M to
UDUDECOMPOSE_FAILURE, both nonzero; yet restart_dprimme, whose call of
restart_projection_dprimme at line 282 ignores the returned value, still
returns 0 (success) on such a call, contradicting its own documented return
values -2 and -4 (restart_d.c lines 154-159). -/
theorem c1_projection_error_dropped :
    restart_projection_ret (-1) false 0 = RESTART_H_FAILURE ∧
    restart_projection_ret 0 true (-1) = UDUDECOMPOSE_FAILURE ∧
    RESTART_H_FAILURE ≠ 0 ∧
    UDUDECOMPOSE_FAILURE ≠ 0 ∧
    restart_dprimme_ret 0 (restart_projection_ret (-1) false 0) = 0 ∧
    restart_dprimme_ret 0 (restart_projection_ret 0 true (-1)) = 0 := by
  decide

/-- C5 (counterexample): at a state with basisSize + numOrthoConst >= n
(basisSize = 3, numOrthoConst = 0, n = 3, reachable because the coordinator
force-converges flags in exactly that regime and still calls the soft-locking
routine), index 0 < numEvals has a CONVERGED flag and
|hVals[0] - evals[0]| = 10 > 1 = resNorms[0], yet the drift re-check leaves the
flag CONVERGED: the reset claimed by C5 does not happen. -/
theorem c5_counterexample :
    3 + 0 ≥ 3 ∧
    ((1 : ℚ) < fabs ((10 : ℚ) - 0)) ∧
    driftResetFlags (fun _ => PFlag.CONVERGED) (fun _ => 10) (fun _ => 0)
      (fun _ => 1) 1 3 0 3 0 = PFlag.CONVERGED ∧
    PFlag.CONVERGED ≠ PFlag.UNCONVERGED := by
  refine ⟨by norm_num, by norm_num [fabs], by norm_num [driftResetFlags, fabs], by decide⟩

/-- C5 (amended): provided basisSize + numOrthoConst < n (the guard at
restart_d.c line 442 that the claim omits), every index i < numEvals whose flag
is not UNCONVERGED and whose drift exceeds resNorms[i] is reset to UNCONVERGED,
and any index whose drift does not exceed resNorms[i] keeps its flag. -/
theorem c5_amended (flags : Nat → PFlag) (hVals evals resNorms : Nat → ℚ)
    (numEvals basisSize numOrthoConst n : Nat)
    (hn : basisSize + numOrthoConst < n) :
    ∀ i < numEvals,
      (flags i ≠ PFlag.UNCONVERGED → resNorms i < fabs (hVals i - evals i) →
        driftResetFlags flags hVals evals resNorms numEvals basisSize numOrthoConst n i
          = PFlag.UNCONVERGED) ∧
      (¬ resNorms i < fabs (hVals i - evals i) →
        driftResetFlags flags hVals evals resNorms numEvals basisSize numOrthoConst n i
          = flags i) := by
  intro i hi
  constructor
  · intro hfl hdrift
    simp [driftResetFlags, hn, hi, hfl, hdrift]
  · intro hdrift
    simp [driftResetFlags, hdrift]

/-- C5 (witness): the amended theorem applied at a concrete drifting state with
basisSize + numOrthoConst < n. -/
theorem c5_amended_witness :
    (2 + 0 < 5) ∧
    driftResetFlags (fun _ => PFlag.CONVERGED) (fun _ => 10) (fun _ => 0)
      (fun _ => 1) 1 2 0 5 0 = PFlag.UNCONVERGED :=
  ⟨by decide,
    ((c5_amended (fun _ => PFlag.CONVERGED) (fun _ => 10) (fun _ => 0) (fun _ => 1)
      1 2 0 5 (by decide) 0 (by decide)).1 (by decide) (by norm_num [fabs]))⟩

/-- C6: in zprimme_svds (primme_svds_z.c lines 113-137), once input checking and
workspace allocation succeed, a nonzero first-stage return r yields r - 100; a
successful first stage with methodStage2 = none yields 0; a successful first
stage followed by a nonzero second-stage return r yields r - 200; and two
successful stages yield 0. -/
theorem c6_stage_codes (c a r1 r2 : Int) (b : Bool) (hc : c = 0) (ha : a = 0) :
    (r1 ≠ 0 → zprimme_svds c a r1 b r2 = r1 - 100) ∧
    (r1 = 0 → b = true → zprimme_svds c a r1 b r2 = 0) ∧
    (r1 = 0 → b = false → r2 ≠ 0 → zprimme_svds c a r1 b r2 = r2 - 200) ∧
    (r1 = 0 → b = false → r2 = 0 → zprimme_svds c a r1 b r2 = 0) := by
  subst hc ha
  refine ⟨?_, ?_, ?_, ?_⟩ <;> intros <;> simp_all [zprimme_svds]

/-- C6 (witness): the staging theorem applied at concrete return codes. -/
theorem c6_stage_codes_witness :
    zprimme_svds 0 0 (-3) false 0 = -3 - 100 ∧
    zprimme_svds 0 0 0 false (-7) = -7 - 200 ∧
    zprimme_svds 0 0 0 true 0 = 0 ∧
    zprimme_svds 0 0 0 false 0 = 0 :=
  ⟨(c6_stage_codes 0 0 (-3) 0 false rfl rfl).1 (by decide),
    (c6_stage_codes 0 0 0 (-7) false rfl rfl).2.2.1 rfl rfl (by decide),
    (c6_stage_codes 0 0 0 0 true rfl rfl).2.1 rfl rfl,
    (c6_stage_codes 0 0 0 0 false rfl rfl).2.2.2 rfl rfl rfl⟩

/-- C8: reset_flags_dprimme(flags, first, last) sets flags[i] = UNCONVERGED for
every 0 <= i <= last and does not depend on first at all; consequently the
flags at exit of dtr_dprimme, which ends with
reset_flags_dprimme(flags, restartSize, maxBasisSize), are UNCONVERGED on all
of [0, maxBasisSize] inclusive, erasing the flags the dtr copy loop had just
moved next to the retained right-of-spectrum Ritz pairs. -/
theorem c8_reset_flags (flags : Nat → PFlag)
    (first first2 last maxBasisSize lOpt rOpt basisSize : Nat) :
    (∀ i ≤ last, reset_flags_dprimme flags first last i = PFlag.UNCONVERGED) ∧
    reset_flags_dprimme flags first last = reset_flags_dprimme flags first2 last ∧
    (∀ i ≤ maxBasisSize,
      dtr_final_flags flags lOpt rOpt basisSize maxBasisSize i = PFlag.UNCONVERGED) := by
  refine ⟨fun i hi => ?_, rfl, fun i hi => ?_⟩
  · simp [reset_flags_dprimme, hi]
  · simp [dtr_final_flags, reset_flags_dprimme, hi]

/-- C8 (witness): the reset theorem applied at a concrete flag state, showing in
particular that a flag copied by the dtr copy loop is erased. -/
theorem c8_reset_flags_witness :
    reset_flags_dprimme (fun _ => PFlag.CONVERGED) 5 7 3 = PFlag.UNCONVERGED ∧
    dtr_final_flags (fun _ => PFlag.CONVERGED) 2 1 4 6 2 = PFlag.UNCONVERGED :=
  ⟨(c8_reset_flags (fun _ => PFlag.CONVERGED) 5 0 7 6 2 1 4).1 3 (by decide),
    (c8_reset_flags (fun _ => PFlag.CONVERGED) 5 0 7 6 2 1 4).2.2 2 (by decide)⟩

/-- C9: the target shift list built for the second stage when the target is
smallest and no user shifts exist (primme_svds_z.c lines 254-281) has exactly
numSvals entries, every entry is at least aNorm * machEps, and the list is
sorted ascending. -/
theorem c9_stage2_shifts (svals rnorms : Nat → ℚ) (initSize numSvals : Nat)
    (anormEps : ℚ) (h : initSize ≤ numSvals) :
    (stage2TargetShifts svals rnorms initSize numSvals anormEps).length = numSvals ∧
    (∀ x ∈ stage2TargetShifts svals rnorms initSize numSvals anormEps, anormEps ≤ x) ∧
    List.Sorted (· ≤ ·) (stage2TargetShifts svals rnorms initSize numSvals anormEps) := by
  refine ⟨?_, ?_, ?_⟩
  · rw [stage2TargetShifts, (List.mergeSort_perm _ _).length_eq, List.length_map,
      List.length_range]
  · intro x hx
    rw [stage2TargetShifts, (List.mergeSort_perm _ _).mem_iff] at hx
    obtain ⟨i, _, rfl⟩ := List.mem_map.mp hx
    by_cases hi : i < initSize
    · simp only [hi, if_true]
      exact le_max_right _ _
    · simp [hi]
  · exact List.sorted_mergeSort' _

/-- C9 (witness): the shift list theorem applied at a concrete stage-1 result
with initSize = 1 x numSvals = 2. -/
theorem c9_stage2_shifts_witness :
    (1 : Nat) ≤ 2 ∧
    (stage2TargetShifts (fun _ => 5) (fun _ => 1) 1 2 3).length = 2 :=
  ⟨by decide, (c9_stage2_shifts (fun _ => 5) (fun _ => 1) 1 2 3 (by decide)).1⟩

/-- C10: when the first stage used the AtA or AAt operator, each written-back
singular value equals s(max(0, lambda)) for the eigenvalue lambda returned by
the eigensolver, where s is the (libm) square root kernel; since sqrt maps
nonnegatives to nonnegatives, every reported singular value is nonnegative even
for a negative eigenvalue approximation. -/
theorem c10_svals_nonneg (s : ℚ → ℚ) (svals : Nat → ℚ) (initSize : Nat)
    (hs : ∀ x : ℚ, 0 ≤ x → 0 ≤ s x) :
    ∀ i < initSize, copy_svals_back s svals initSize i = s (max 0 (svals i)) ∧
      0 ≤ copy_svals_back s svals initSize i := by
  intro i hi
  refine ⟨?_, ?_⟩
  · simp [copy_svals_back, hi]
  · simp only [copy_svals_back, hi, if_true]
    exact hs _ (le_max_left 0 _)

/-- C10 (witness): the write-back theorem applied with s = id (which maps
nonnegatives to nonnegatives) at a negative eigenvalue -1. -/
theorem c10_svals_nonneg_witness :
    copy_svals_back id (fun _ => -1) 1 0 = id (max 0 (-1 : ℚ)) ∧
    0 ≤ copy_svals_back id (fun _ => -1) 1 0 :=
  c10_svals_nonneg id (fun _ => -1) 1 (fun _ hx => hx) 0 (by decide)

/-- C2 (counterexample): a state with basisSize = 2 <= maxBasisSize -
maxBlockSize = 5 - 1 and one retained previous vector (numPrevRetained = 1):
restart_dprimme selects restartSize = basisSize = 2 but still runs the
soft-locking restart, which adds the retained previous vector, and the call
reports restartSize = 3, not basisSize = 2. -/
theorem c2_counterexample :
    ((2 : Int) ≤ 5 - 1) ∧
    restart_reported_size (fun _ => PFlag.UNCONVERGED) 100 2 0 0 5 1 2 false 0 1
      1 0 0 = 3 ∧
    ((3 : Int) ≠ 2) := by
  decide

/-- C2 (amended): when basisSize <= maxBasisSize - maxBlockSize (and the basis
does not exhaust the space), the size selector keeps restartSize = basisSize,
but restart still executes the soft-locking restart, so the reported size is
min(maxBasisSize, basisSize + numPrevRetained); it equals basisSize exactly
when no previous coefficient vectors are retained. The bases are reprocessed
(V and W are overwritten with V*hVecs and W*hVecs), not left bit-unchanged. -/
theorem c2_amended (flags : Nat → PFlag) (n basisSize numLocked numOrthoConst
    maxBasisSize maxBlockSize minRestartSize dtrRes numPrevIn numEvals
    numConvergedIn numArbitraryVecs : Int) (schemeDtr : Bool)
    (hfull : basisSize + numLocked + numOrthoConst < n)
    (hsz : basisSize ≤ maxBasisSize - maxBlockSize)
    (hbs : basisSize ≤ maxBasisSize) (hnp : 0 ≤ numPrevIn) :
    restart_reported_size flags n basisSize numLocked numOrthoConst maxBasisSize
        maxBlockSize minRestartSize schemeDtr dtrRes numPrevIn numEvals
        numConvergedIn numArbitraryVecs =
      min maxBasisSize (basisSize + numPrevIn) ∧
    (numPrevIn = 0 →
      restart_reported_size flags n basisSize numLocked numOrthoConst maxBasisSize
          maxBlockSize minRestartSize schemeDtr dtrRes numPrevIn numEvals
          numConvergedIn numArbitraryVecs = basisSize) := by
  have h1 : ¬ (basisSize + numLocked + numOrthoConst ≥ n) := by omega
  simp only [restart_reported_size, restartSizeSelect, if_neg h1, if_pos hsz,
    restart_soft_locking_scalars]
  norm_num
  omega

/-- C2 (witness): the amended statement applied at a concrete state with two
retained previous vectors. -/
theorem c2_amended_witness :
    restart_reported_size (fun _ => PFlag.UNCONVERGED) 50 3 0 0 10 2 3 false 0 2
      2 0 0 = min 10 (3 + 2) :=
  (c2_amended (fun _ => PFlag.UNCONVERGED) 50 3 0 0 10 2 3 0 2 2 0 0 false
    (by decide) (by decide) (by decide) (by decide)).1

/-- C7: on every successful return of the soft-locking restart routine the
output *ievSize is 0 (the TEMP!!! assignment at restart_d.c line 592), even
though during the call *ievSize was set (line 477) to
min(maxBlockSize, numEvals - numConverged + 1, maxBasisSize - restartSize) with
restartSize already increased by the retained previous vectors. -/
theorem c7_ievSize (flags : Nat → PFlag) (restartSizeIn numPrevIn maxBasisSize
    maxBlockSize numEvals numConvergedIn numArbitraryVecs basisSize orthoRet
    updateRet : Int)
    (hsucc : (restart_soft_locking_scalars flags restartSizeIn numPrevIn maxBasisSize
      maxBlockSize numEvals numConvergedIn numArbitraryVecs basisSize orthoRet
      updateRet).ret = 0) :
    (restart_soft_locking_scalars flags restartSizeIn numPrevIn maxBasisSize
      maxBlockSize numEvals numConvergedIn numArbitraryVecs basisSize orthoRet
      updateRet).ievSize = 0 ∧
    (restart_soft_locking_scalars flags restartSizeIn numPrevIn maxBasisSize
      maxBlockSize numEvals numConvergedIn numArbitraryVecs basisSize orthoRet
      updateRet).ievSizeMid =
      min (min maxBlockSize (numEvals - numConvergedIn + 1))
        (maxBasisSize - (restart_soft_locking_scalars flags restartSizeIn numPrevIn
          maxBasisSize maxBlockSize numEvals numConvergedIn numArbitraryVecs
          basisSize orthoRet updateRet).restartSize) := by
  by_cases ho : orthoRet = 0
  · by_cases hu : updateRet = 0
    · subst ho hu
      simp [restart_soft_locking_scalars]
    · exfalso
      simp [restart_soft_locking_scalars, ho, hu] at hsucc
  · exfalso
    simp [restart_soft_locking_scalars, ho] at hsucc

/-- C7 (witness): the post-condition applied at a concrete successful
soft-locking restart (the state of the C3 scenario). -/
theorem c7_ievSize_witness :
    (restart_soft_locking_scalars c3flags 1 1 4 1 2 1 0 4 0 0).ret = 0 ∧
    (restart_soft_locking_scalars c3flags 1 1 4 1 2 1 0 4 0 0).ievSize = 0 :=
  ⟨by decide, (c7_ievSize c3flags 1 1 4 1 2 1 0 4 0 0 (by decide)).1⟩

/-- Membership characterisation of the dtr search region: the loop pairs are
exactly lMin <= l < basisSize - numFree, 0 <= r < basisSize - l - numFree. -/
theorem mem_dtrPairs (basisSize numFree lMin l r : Nat) :
    (l, r) ∈ dtrPairs basisSize numFree lMin ↔
      lMin ≤ l ∧ l < basisSize - numFree ∧ r < basisSize - l - numFree := by
  simp only [dtrPairs, List.mem_flatMap, List.mem_filter, List.mem_range,
    List.mem_map, decide_eq_true_eq, Prod.mk.injEq]
  constructor
  · rintro ⟨a, ⟨ha1, ha2⟩, b, hb, rfl, rfl⟩
    exact ⟨ha2, ha1, hb⟩
  · rintro ⟨h1, h2, h3⟩
    exact ⟨l, ⟨h2, h1⟩, r, h3, rfl, rfl⟩

/-- Invariant preservation along the dtr selection fold: the running optimum is
either the initial pair or a visited pair that passed the divisibility test. -/
theorem dtr_foldl_mem (hVals : Nat → ℚ) (nu : ℚ) (basisSize maxBlockSize : Nat)
    (P : Nat × Nat → Prop) (l : List (Nat × Nat)) (init : Nat × Nat × ℚ)
    (hinit : P (init.1, init.2.1))
    (hstep : ∀ lr ∈ l, (basisSize - lr.1 - lr.2) % maxBlockSize = 0 → P lr) :
    P ((l.foldl (dtrStep hVals nu basisSize maxBlockSize) init).1,
       (l.foldl (dtrStep hVals nu basisSize maxBlockSize) init).2.1) := by
  induction l generalizing init with
  | nil => exact hinit
  | cons a t ih =>
    simp only [List.foldl_cons]
    apply ih
    · by_cases hdiv : (basisSize - a.1 - a.2) % maxBlockSize = 0
      · simp only [dtrStep, hdiv, if_true]
        split
        · exact hstep a (List.mem_cons_self a t) hdiv
        · exact hinit
      · simpa only [dtrStep, hdiv, if_false] using hinit
    · intro lr hlr hd
      exact hstep lr (List.mem_cons_of_mem a hlr) hd

/-- C4 (counterexample): with basisSize = 5, numFree = 3, maxBlockSize = 2,
lMin = 1, ascending hVals = (0,1,2,3,4) and targeted Ritz value nu = hVals[0],
the selector picks (lOpt, rOpt) = (1, 0) (the only pair passing the code's test
(basisSize - l - r) % maxBlockSize == 0) and returns 1; the claim's condition
"l + r a multiple of maxBlockSize" fails: 1 + 0 is not a multiple of 2. -/
theorem c4_counterexample :
    dtrSelect (fun i => (i : ℚ)) 0 5 3 2 1 = (1, 0) ∧
    dtr_dprimme (fun i => (i : ℚ)) 0 5 3 2 1 = 1 ∧
    ¬ (1 + 0) % 2 = 0 := by
  norm_num [dtrSelect, dtr_dprimme, dtrPairs, dtrStep, List.range_succ]

/-- C4 (amended): for inputs in range (0 < lMin and lMin + numFree <= basisSize)
the dynamic thick-restart selector returns lOpt + rOpt with
0 < lOpt + rOpt <= basisSize - numFree, and the chosen pair is either the
default (lMin, 0) or comes from the search region lMin <= l < basisSize -
numFree, 0 <= r < basisSize - l - numFree with basisSize - (l + r), not l + r,
a multiple of maxBlockSize. -/
theorem c4_amended (hVals : Nat → ℚ) (nu : ℚ)
    (basisSize numFree maxBlockSize lMin : Nat)
    (hl : 0 < lMin) (hub : lMin + numFree ≤ basisSize) :
    (0 < dtr_dprimme hVals nu basisSize numFree maxBlockSize lMin ∧
      dtr_dprimme hVals nu basisSize numFree maxBlockSize lMin ≤ basisSize - numFree) ∧
    (dtrSelect hVals nu basisSize numFree maxBlockSize lMin = (lMin, 0) ∨
      (lMin ≤ (dtrSelect hVals nu basisSize numFree maxBlockSize lMin).1 ∧
        (dtrSelect hVals nu basisSize numFree maxBlockSize lMin).1 <
          basisSize - numFree ∧
        (dtrSelect hVals nu basisSize numFree maxBlockSize lMin).2 <
          basisSize - (dtrSelect hVals nu basisSize numFree maxBlockSize lMin).1 -
            numFree ∧
        (basisSize - (dtrSelect hVals nu basisSize numFree maxBlockSize lMin).1 -
          (dtrSelect hVals nu basisSize numFree maxBlockSize lMin).2) %
            maxBlockSize = 0)) := by
  have key := dtr_foldl_mem hVals nu basisSize maxBlockSize
    (fun p => p = (lMin, 0) ∨ (lMin ≤ p.1 ∧ p.1 < basisSize - numFree ∧
      p.2 < basisSize - p.1 - numFree ∧ (basisSize - p.1 - p.2) % maxBlockSize = 0))
    (dtrPairs basisSize numFree lMin) (lMin, 0, 0) (Or.inl rfl)
    (fun lr hlr hd => Or.inr (by
      obtain ⟨h1, h2, h3⟩ := (mem_dtrPairs basisSize numFree lMin lr.1 lr.2).mp hlr
      exact ⟨h1, h2, h3, hd⟩))
  have key2 : dtrSelect hVals nu basisSize numFree maxBlockSize lMin = (lMin, 0) ∨
      (lMin ≤ (dtrSelect hVals nu basisSize numFree maxBlockSize lMin).1 ∧
        (dtrSelect hVals nu basisSize numFree maxBlockSize lMin).1 <
          basisSize - numFree ∧
        (dtrSelect hVals nu basisSize numFree maxBlockSize lMin).2 <
          basisSize - (dtrSelect hVals nu basisSize numFree maxBlockSize lMin).1 -
            numFree ∧
        (basisSize - (dtrSelect hVals nu basisSize numFree maxBlockSize lMin).1 -
          (dtrSelect hVals nu basisSize numFree maxBlockSize lMin).2) %
            maxBlockSize = 0) :=
    key
  refine ⟨?_, key2⟩
  have hd : dtr_dprimme hVals nu basisSize numFree maxBlockSize lMin =
      (dtrSelect hVals nu basisSize numFree maxBlockSize lMin).1 +
        (dtrSelect hVals nu basisSize numFree maxBlockSize lMin).2 := rfl
  rcases key2 with h | h
  · rw [hd, h]
    simp only [Prod.fst, Prod.snd]
    omega
  · rw [hd]
    omega

/-- C4 (witness): the amended feasibility bounds applied at a concrete in-range
input. -/
theorem c4_amended_witness :
    (0 < 2 ∧ 2 + 3 ≤ 6) ∧
    (0 < dtr_dprimme (fun i => (i : ℚ)) 0 6 3 3 2 ∧
      dtr_dprimme (fun i => (i : ℚ)) 0 6 3 3 2 ≤ 6 - 3) :=
  ⟨⟨by decide, by decide⟩,
    (c4_amended (fun i => (i : ℚ)) 0 6 3 3 2 (by decide) (by decide)).1⟩

/-- When hVecsPerm fixes iopv and preserves the previous-vector window, the
search for orderedIndexOfPreviousVecs finds exactly iopv. -/
theorem findOrdered_eq_iopv (sig : Nat → Nat) (restartSize iopv p : Nat)
    (hp : 0 < p) (hle : iopv + p ≤ restartSize)
    (hwin : ∀ i, i < restartSize →
      ((iopv ≤ sig i ∧ sig i < iopv + p) ↔ (iopv ≤ i ∧ i < iopv + p)))
    (hfix : sig iopv = iopv) :
    findOrdered sig iopv restartSize = iopv := by
  have hsplit : List.range restartSize =
      List.range iopv ++ (List.range (restartSize - iopv)).map (iopv + ·) := by
    rw [← List.range_add iopv (restartSize - iopv)]
    congr 1
    omega
  rw [findOrdered, hsplit, List.find?_append]
  have h1 : List.find? (fun i => sig i == iopv) (List.range iopv) = none := by
    rw [List.find?_eq_none]
    intro x hx
    simp only [List.mem_range] at hx
    simp only [beq_iff_eq]
    intro hsx
    have hx2 := (hwin x (by omega)).mp (by rw [hsx]; omega)
    omega
  rw [h1]
  have h2 : restartSize - iopv = (restartSize - iopv - 1) + 1 := by omega
  rw [h2, List.range_succ_eq_map]
  simp only [List.map_cons, Option.none_or, List.find?_cons]
  have h3 : (sig (iopv + 0) == iopv) = true := by
    simp [hfix]
  rw [h3]
  rfl

/-- The block of the rebuilt H shifted back to absolute indices. -/
theorem rr_H_block (Hold hVecsIn : Nat → Nat → ℚ) (hValsIn : Nat → ℚ)
    (basisSize restartSize iopv p : Nat) (a b : Nat)
    (ha1 : iopv ≤ a) (hb1 : iopv ≤ b) :
    rrBlock Hold hVecsIn hValsIn basisSize restartSize iopv p (a - iopv) (b - iopv) =
      restartRR_H Hold hVecsIn hValsIn basisSize restartSize iopv p a b := by
  simp only [rrBlock, Nat.add_sub_cancel' ha1, Nat.add_sub_cancel' hb1]

/-- Upper-triangle entries of the rebuilt H outside the inserted block columns:
diagonal hVals entries and zeros. -/
theorem rr_H_offblock (Hold hVecsIn : Nat → Nat → ℚ) (hValsIn : Nat → ℚ)
    (basisSize restartSize iopv p : Nat) (a b : Nat)
    (hab : a ≤ b) (hb : b < restartSize) (hnb : ¬ (iopv ≤ b ∧ b < iopv + p)) :
    restartRR_H Hold hVecsIn hValsIn basisSize restartSize iopv p a b =
      if a = b then hValsIn b else 0 := by
  simp only [restartRR_H]
  split_ifs <;> first | rfl | omega

/-- Entries of the rebuilt H above the inserted block are zero. -/
theorem rr_H_above (Hold hVecsIn : Nat → Nat → ℚ) (hValsIn : Nat → ℚ)
    (basisSize restartSize iopv p : Nat) (a b : Nat)
    (ha : a < iopv) (hb1 : iopv ≤ b) (hb2 : b < iopv + p) :
    restartRR_H Hold hVecsIn hValsIn basisSize restartSize iopv p a b = 0 := by
  simp only [restartRR_H]
  split_ifs <;> first | rfl | omega

/-- Hermitian reading of the rebuilt H: the inserted (symmetric) block on the
window, the hVals diagonal elsewhere. -/
theorem rr_symm_char (Hold hVecsIn : Nat → Nat → ℚ) (hValsIn : Nat → ℚ)
    (basisSize restartSize iopv p : Nat) (hle : iopv + p ≤ restartSize)
    (hBsym : ∀ i j, i < p → j < p →
      rrBlock Hold hVecsIn hValsIn basisSize restartSize iopv p i j =
        rrBlock Hold hVecsIn hValsIn basisSize restartSize iopv p j i)
    (i j : Nat) (hi : i < restartSize) (hj : j < restartSize) :
    symmRep (restartRR_H Hold hVecsIn hValsIn basisSize restartSize iopv p) i j =
      if iopv ≤ i ∧ i < iopv + p ∧ iopv ≤ j ∧ j < iopv + p then
        rrBlock Hold hVecsIn hValsIn basisSize restartSize iopv p (i - iopv) (j - iopv)
      else if i = j then hValsIn j else 0 := by
  by_cases hwi : iopv ≤ i ∧ i < iopv + p
  · by_cases hwj : iopv ≤ j ∧ j < iopv + p
    · rw [if_pos ⟨hwi.1, hwi.2, hwj.1, hwj.2⟩]
      rcases le_or_lt i j with hij | hij
      · rw [symmRep, if_pos hij, rr_H_block Hold hVecsIn hValsIn basisSize restartSize
          iopv p i j hwi.1 hwj.1]
      · rw [symmRep, if_neg (by omega), ← rr_H_block Hold hVecsIn hValsIn basisSize
          restartSize iopv p j i hwj.1 hwi.1,
          hBsym (j - iopv) (i - iopv) (by omega) (by omega)]
    · rw [if_neg (by tauto)]
      have hij : i ≠ j := by
        intro hEq
        exact hwj (hEq ▸ hwi)
      rw [if_neg hij]
      rcases Nat.lt_or_ge j iopv with hjlo | hjhi
      · have hji : ¬ i ≤ j := by omega
        rw [symmRep, if_neg hji]
        exact rr_H_above Hold hVecsIn hValsIn basisSize restartSize iopv p j i hjlo
          hwi.1 hwi.2
      · have hjw : ¬ (iopv ≤ j ∧ j < iopv + p) := hwj
        have hij2 : i ≤ j := by omega
        rw [symmRep, if_pos hij2, rr_H_offblock Hold hVecsIn hValsIn basisSize
          restartSize iopv p i j hij2 hj hjw, if_neg hij]
  · rw [if_neg (by tauto)]
    by_cases hwj : iopv ≤ j ∧ j < iopv + p
    · have hij : i ≠ j := by
        intro hEq
        exact hwi (hEq ▸ hwj)
      rw [if_neg hij]
      rcases Nat.lt_or_ge i iopv with hilo | hihi
      · have hij2 : i ≤ j := by omega
        rw [symmRep, if_pos hij2]
        exact rr_H_above Hold hVecsIn hValsIn basisSize restartSize iopv p i j hilo
          hwj.1 hwj.2
      · have hji : ¬ i ≤ j := by omega
        rw [symmRep, if_neg hji, rr_H_offblock Hold hVecsIn hValsIn basisSize
          restartSize iopv p j i (by omega) hi hwi]
        simp only [if_neg (by omega : ¬ j = i)]
    · rcases le_or_lt i j with hij | hij
      · rw [symmRep, if_pos hij, rr_H_offblock Hold hVecsIn hValsIn basisSize
          restartSize iopv p i j hij hj hwj]
      · rw [symmRep, if_neg (by omega), rr_H_offblock Hold hVecsIn hValsIn basisSize
          restartSize iopv p j i (by omega) hi hwi]
        have h1 : ¬ j = i := by omega
        have h2 : ¬ i = j := by omega
        rw [if_neg h1, if_neg h2]

/-- Output hVecs of restart_RR under window alignment: the solve_H eigenvector
block on the window, the hVecsPerm-permuted identity elsewhere. -/
theorem rr_hVecs_char
    (solveH : (Nat → Nat → ℚ) → Nat → ((Nat → Nat → ℚ) × (Nat → ℚ)))
    (Hold hVecsIn : Nat → Nat → ℚ) (hValsIn : Nat → ℚ) (sig : Nat → Nat)
    (basisSize restartSize iopv p : Nat)
    (hp : 0 < p) (hle : iopv + p ≤ restartSize)
    (hwin : ∀ i, i < restartSize →
      ((iopv ≤ sig i ∧ sig i < iopv + p) ↔ (iopv ≤ i ∧ i < iopv + p)))
    (hfix : sig iopv = iopv)
    (i j : Nat) (hi : i < restartSize) (hj : j < restartSize) :
    (restartRRModel solveH Hold hVecsIn hValsIn sig basisSize restartSize iopv p).hVecs
        i j =
      if iopv ≤ i ∧ i < iopv + p ∧ iopv ≤ j ∧ j < iopv + p then
        (solveH (rrBlock Hold hVecsIn hValsIn basisSize restartSize iopv p) p).1
          (i - iopv) (j - iopv)
      else if i = sig j then 1 else 0 := by
  have hw := findOrdered_eq_iopv sig restartSize iopv p hp hle hwin hfix
  simp only [restartRRModel, hw, rrBlock]
  by_cases hcond : iopv ≤ i ∧ i < iopv + p ∧ iopv ≤ j ∧ j < iopv + p
  · rw [if_pos hcond, if_pos hcond]
    rfl
  · rw [if_neg hcond, if_neg hcond, if_pos hj]
    by_cases hsj : i = sig j
    · rw [if_pos hsj, if_pos hsj]
    · rw [if_neg hsj, if_neg hsj, if_pos hi]

/-- Output hVals of restart_RR under window alignment: the solve_H eigenvalues
on the window, the permuted input Ritz values elsewhere. -/
theorem rr_hVals_char
    (solveH : (Nat → Nat → ℚ) → Nat → ((Nat → Nat → ℚ) × (Nat → ℚ)))
    (Hold hVecsIn : Nat → Nat → ℚ) (hValsIn : Nat → ℚ) (sig : Nat → Nat)
    (basisSize restartSize iopv p : Nat)
    (hp : 0 < p) (hle : iopv + p ≤ restartSize)
    (hwin : ∀ i, i < restartSize →
      ((iopv ≤ sig i ∧ sig i < iopv + p) ↔ (iopv ≤ i ∧ i < iopv + p)))
    (hfix : sig iopv = iopv)
    (j : Nat) (hj : j < restartSize) :
    (restartRRModel solveH Hold hVecsIn hValsIn sig basisSize restartSize iopv p).hVals
        j =
      if iopv ≤ j ∧ j < iopv + p then
        (solveH (rrBlock Hold hVecsIn hValsIn basisSize restartSize iopv p) p).2
          (j - iopv)
      else hValsIn (sig j) := by
  have hw := findOrdered_eq_iopv sig restartSize iopv p hp hle hwin hfix
  simp only [restartRRModel, hw, rrBlock]
  by_cases hcond : iopv ≤ j ∧ j < iopv + p
  · rw [if_pos hcond, if_pos hcond]
    rfl
  · rw [if_neg hcond, if_neg hcond, if_pos hj]

/-- The H component of the restart_RR output is the rebuilt array. -/
theorem rr_H_eq
    (solveH : (Nat → Nat → ℚ) → Nat → ((Nat → Nat → ℚ) × (Nat → ℚ)))
    (Hold hVecsIn : Nat → Nat → ℚ) (hValsIn : Nat → ℚ) (sig : Nat → Nat)
    (basisSize restartSize iopv p : Nat) :
    (restartRRModel solveH Hold hVecsIn hValsIn sig basisSize restartSize iopv p).H =
      restartRR_H Hold hVecsIn hValsIn basisSize restartSize iopv p := rfl

/-- Under window alignment and a correct eigendecomposition of the inserted
block, the restart_RR output (hVals, hVecs) diagonalises the Hermitian reading
of the rebuilt H. -/
theorem rr_diag
    (solveH : (Nat → Nat → ℚ) → Nat → ((Nat → Nat → ℚ) × (Nat → ℚ)))
    (Hold hVecsIn : Nat → Nat → ℚ) (hValsIn : Nat → ℚ) (sig : Nat → Nat)
    (basisSize restartSize iopv p : Nat)
    (hp : 0 < p) (hle : iopv + p ≤ restartSize)
    (hlt : ∀ i, i < restartSize → sig i < restartSize)
    (hwin : ∀ i, i < restartSize →
      ((iopv ≤ sig i ∧ sig i < iopv + p) ↔ (iopv ≤ i ∧ i < iopv + p)))
    (hfix : sig iopv = iopv)
    (hBsym : ∀ i j, i < p → j < p →
      rrBlock Hold hVecsIn hValsIn basisSize restartSize iopv p i j =
        rrBlock Hold hVecsIn hValsIn basisSize restartSize iopv p j i)
    (hsolve : ∀ i j, i < p → j < p →
      ∑ k in Finset.range p,
        rrBlock Hold hVecsIn hValsIn basisSize restartSize iopv p i k *
          (solveH (rrBlock Hold hVecsIn hValsIn basisSize restartSize iopv p) p).1 k j =
        (solveH (rrBlock Hold hVecsIn hValsIn basisSize restartSize iopv p) p).2 j *
          (solveH (rrBlock Hold hVecsIn hValsIn basisSize restartSize iopv p) p).1 i j) :
    rrDiagonalises
      (restartRRModel solveH Hold hVecsIn hValsIn sig basisSize restartSize iopv p)
      restartSize := by
  have hvecs := rr_hVecs_char solveH Hold hVecsIn hValsIn sig basisSize restartSize
    iopv p hp hle hwin hfix
  have hvals := rr_hVals_char solveH Hold hVecsIn hValsIn sig basisSize restartSize
    iopv p hp hle hwin hfix
  have hsymm := rr_symm_char Hold hVecsIn hValsIn basisSize restartSize iopv p hle hBsym
  intro i j hi hj
  rw [matApplyEntry, rr_H_eq]
  by_cases hwj : iopv ≤ j ∧ j < iopv + p
  · -- column j carries an eigenvector of the inserted block
    have hsigj : iopv ≤ sig j ∧ sig j < iopv + p := (hwin j hj).mpr hwj
    have hsum1 : ∀ k ∈ Finset.range restartSize,
        symmRep (restartRR_H Hold hVecsIn hValsIn basisSize restartSize iopv p) i k *
          (restartRRModel solveH Hold hVecsIn hValsIn sig basisSize restartSize iopv
            p).hVecs k j =
        (if iopv ≤ k ∧ k < iopv + p then
          symmRep (restartRR_H Hold hVecsIn hValsIn basisSize restartSize iopv p) i k *
            (solveH (rrBlock Hold hVecsIn hValsIn basisSize restartSize iopv p) p).1
              (k - iopv) (j - iopv)
        else 0) := by
      intro k hk
      rw [Finset.mem_range] at hk
      rw [hvecs k j hk hj]
      by_cases hwk : iopv ≤ k ∧ k < iopv + p
      · rw [if_pos ⟨hwk.1, hwk.2, hwj.1, hwj.2⟩, if_pos hwk]
      · rw [if_neg (by tauto), if_neg hwk]
        have hkne : ¬ k = sig j := by
          intro h
          exact hwk (h ▸ hsigj)
        rw [if_neg hkne, mul_zero]
    rw [Finset.sum_congr rfl hsum1, ← Finset.sum_filter]
    have hfilter : Finset.filter (fun k => iopv ≤ k ∧ k < iopv + p)
        (Finset.range restartSize) = Finset.Ico iopv (iopv + p) := by
      ext x
      simp only [Finset.mem_filter, Finset.mem_range, Finset.mem_Ico]
      omega
    rw [hfilter, Finset.sum_Ico_eq_sum_range]
    have harith : iopv + p - iopv = p := by omega
    rw [harith]
    by_cases hwi : iopv ≤ i ∧ i < iopv + p
    · have hterm : ∀ k ∈ Finset.range p,
          symmRep (restartRR_H Hold hVecsIn hValsIn basisSize restartSize iopv p) i
              (iopv + k) *
            (solveH (rrBlock Hold hVecsIn hValsIn basisSize restartSize iopv p) p).1
              (iopv + k - iopv) (j - iopv) =
          rrBlock Hold hVecsIn hValsIn basisSize restartSize iopv p (i - iopv) k *
            (solveH (rrBlock Hold hVecsIn hValsIn basisSize restartSize iopv p) p).1
              k (j - iopv) := by
        intro k hk
        rw [Finset.mem_range] at hk
        rw [hsymm i (iopv + k) hi (by omega),
          if_pos ⟨hwi.1, hwi.2, by omega, by omega⟩]
        have h1 : iopv + k - iopv = k := by omega
        rw [h1]
      rw [Finset.sum_congr rfl hterm, hsolve (i - iopv) (j - iopv) (by omega) (by omega)]
      rw [hvals j hj, if_pos hwj, hvecs i j hi hj,
        if_pos ⟨hwi.1, hwi.2, hwj.1, hwj.2⟩]
    · have hterm : ∀ k ∈ Finset.range p,
          symmRep (restartRR_H Hold hVecsIn hValsIn basisSize restartSize iopv p) i
              (iopv + k) *
            (solveH (rrBlock Hold hVecsIn hValsIn basisSize restartSize iopv p) p).1
              (iopv + k - iopv) (j - iopv) = 0 := by
        intro k hk
        rw [Finset.mem_range] at hk
        rw [hsymm i (iopv + k) hi (by omega), if_neg (by tauto),
          if_neg (by omega : ¬ i = iopv + k), zero_mul]
      rw [Finset.sum_congr rfl hterm, Finset.sum_const, smul_zero]
      rw [hvals j hj, if_pos hwj, hvecs i j hi hj, if_neg (by tauto)]
      have hine : ¬ i = sig j := by
        intro h
        exact hwi (h ▸ hsigj)
      rw [if_neg hine, mul_zero]
  · -- column j is a permuted standard basis vector
    have hsigj : ¬ (iopv ≤ sig j ∧ sig j < iopv + p) := fun h => hwj ((hwin j hj).mp h)
    have hsum1 : ∀ k ∈ Finset.range restartSize,
        symmRep (restartRR_H Hold hVecsIn hValsIn basisSize restartSize iopv p) i k *
          (restartRRModel solveH Hold hVecsIn hValsIn sig basisSize restartSize iopv
            p).hVecs k j =
        (symmRep (restartRR_H Hold hVecsIn hValsIn basisSize restartSize iopv p) i k *
          (if k = sig j then 1 else 0)) := by
      intro k hk
      rw [Finset.mem_range] at hk
      rw [hvecs k j hk hj, if_neg (by tauto)]
    rw [Finset.sum_congr rfl hsum1]
    rw [Finset.sum_eq_single_of_mem (sig j) (Finset.mem_range.mpr (hlt j hj))
      (fun b _ hb => by rw [if_neg hb, mul_zero])]
    rw [if_pos rfl, mul_one]
    have hLHS : symmRep (restartRR_H Hold hVecsIn hValsIn basisSize restartSize iopv p)
        i (sig j) = if i = sig j then hValsIn (sig j) else 0 := by
      rw [hsymm i (sig j) hi (hlt j hj),
        if_neg (fun hcl => hsigj ⟨hcl.2.2.1, hcl.2.2.2⟩)]
    have hRHS1 : (restartRRModel solveH Hold hVecsIn hValsIn sig basisSize restartSize
        iopv p).hVals j = hValsIn (sig j) := by
      rw [hvals j hj, if_neg hwj]
    have hRHS2 : (restartRRModel solveH Hold hVecsIn hValsIn sig basisSize restartSize
        iopv p).hVecs i j = if i = sig j then 1 else 0 := by
      rw [hvecs i j hi hj, if_neg (fun hcl => hwj ⟨hcl.2.2.1, hcl.2.2.2⟩)]
    rw [hLHS, hRHS1, hRHS2]
    by_cases hij : i = sig j
    · rw [if_pos hij, if_pos hij, mul_one]
    · rw [if_neg hij, if_neg hij, mul_zero]

/-- The rebuilt H carries the inserted submatrix previousHVecs^H Hold
previousHVecs on the window block. -/
theorem rr_H_block_val (Hold hVecsIn : Nat → Nat → ℚ) (hValsIn : Nat → ℚ)
    (basisSize restartSize iopv p : Nat) (i j : Nat) (hi : i < p) (hj : j < p) :
    restartRR_H Hold hVecsIn hValsIn basisSize restartSize iopv p (iopv + i)
        (iopv + j) =
      computeSubmatrix (fun a b => hVecsIn a (iopv + b)) Hold basisSize i j := by
  simp only [restartRR_H]
  have h1 : ¬ (iopv + j < iopv ∧ iopv + i ≤ iopv + j) := by omega
  have h2 : ¬ (iopv ≤ iopv + j ∧ iopv + j < iopv + p ∧ iopv + i < iopv) := by omega
  have h3 : ¬ (iopv + p ≤ iopv + j ∧ iopv + j < restartSize ∧ iopv + i ≤ iopv + j) := by
    omega
  have h4 : iopv ≤ iopv + i ∧ iopv + i < iopv + p ∧ iopv ≤ iopv + j ∧
      iopv + j < iopv + p := by omega
  rw [if_neg h1, if_neg h2, if_neg h3, if_pos h4, Nat.add_sub_cancel_left,
    Nat.add_sub_cancel_left]

/-- C3 (amended): after a successful Rayleigh-Ritz projection restart, and
provided hVecsPerm fixes indexOfPreviousVecs and maps the previous-vector
window [iopv, iopv+p) onto itself (which the soft-locking permutation does not
guarantee, see the counterexample), the rebuilt H is, in its Hermitian
upper-triangle storage, zero except for diagonal entries hVals[j] outside the
window and the inserted block (previousHVecs)^H H_old (previousHVecs); hVecs is
the identity permuted by hVecsPerm with the block eigenvectors written into the
window diagonal block; and the resulting (hVals, hVecs) diagonalise the new H. -/
theorem c3_amended
    (solveH : (Nat → Nat → ℚ) → Nat → ((Nat → Nat → ℚ) × (Nat → ℚ)))
    (Hold hVecsIn : Nat → Nat → ℚ) (hValsIn : Nat → ℚ) (sig : Nat → Nat)
    (basisSize restartSize iopv p : Nat)
    (hp : 0 < p) (hle : iopv + p ≤ restartSize)
    (hlt : ∀ i, i < restartSize → sig i < restartSize)
    (hwin : ∀ i, i < restartSize →
      ((iopv ≤ sig i ∧ sig i < iopv + p) ↔ (iopv ≤ i ∧ i < iopv + p)))
    (hfix : sig iopv = iopv)
    (hBsym : ∀ i j, i < p → j < p →
      rrBlock Hold hVecsIn hValsIn basisSize restartSize iopv p i j =
        rrBlock Hold hVecsIn hValsIn basisSize restartSize iopv p j i)
    (hsolve : ∀ i j, i < p → j < p →
      ∑ k in Finset.range p,
        rrBlock Hold hVecsIn hValsIn basisSize restartSize iopv p i k *
          (solveH (rrBlock Hold hVecsIn hValsIn basisSize restartSize iopv p) p).1 k j =
        (solveH (rrBlock Hold hVecsIn hValsIn basisSize restartSize iopv p) p).2 j *
          (solveH (rrBlock Hold hVecsIn hValsIn basisSize restartSize iopv p) p).1 i j) :
    (∀ i j, i ≤ j → j < restartSize → ¬ (iopv ≤ j ∧ j < iopv + p) →
      (restartRRModel solveH Hold hVecsIn hValsIn sig basisSize restartSize iopv p).H
          i j = if i = j then hValsIn j else 0) ∧
    (∀ i j, i < p → j < p →
      (restartRRModel solveH Hold hVecsIn hValsIn sig basisSize restartSize iopv p).H
          (iopv + i) (iopv + j) =
        computeSubmatrix (fun a b => hVecsIn a (iopv + b)) Hold basisSize i j) ∧
    (∀ i j, i < restartSize → j < restartSize →
      (restartRRModel solveH Hold hVecsIn hValsIn sig basisSize restartSize iopv
          p).hVecs i j =
        if iopv ≤ i ∧ i < iopv + p ∧ iopv ≤ j ∧ j < iopv + p then
          (solveH (rrBlock Hold hVecsIn hValsIn basisSize restartSize iopv p) p).1
            (i - iopv) (j - iopv)
        else if i = sig j then 1 else 0) ∧
    (∀ j, j < restartSize →
      (restartRRModel solveH Hold hVecsIn hValsIn sig basisSize restartSize iopv
          p).hVals j =
        if iopv ≤ j ∧ j < iopv + p then
          (solveH (rrBlock Hold hVecsIn hValsIn basisSize restartSize iopv p) p).2
            (j - iopv)
        else hValsIn (sig j)) ∧
    rrDiagonalises
      (restartRRModel solveH Hold hVecsIn hValsIn sig basisSize restartSize iopv p)
      restartSize := by
  refine ⟨?_, ?_, ?_, ?_, ?_⟩
  · intro i j hij hj hnb
    rw [rr_H_eq]
    exact rr_H_offblock Hold hVecsIn hValsIn basisSize restartSize iopv p i j hij hj hnb
  · intro i j hi hj
    rw [rr_H_eq]
    exact rr_H_block_val Hold hVecsIn hValsIn basisSize restartSize iopv p i j hi hj
  · exact rr_hVecs_char solveH Hold hVecsIn hValsIn sig basisSize restartSize iopv p
      hp hle hwin hfix
  · exact rr_hVals_char solveH Hold hVecsIn hValsIn sig basisSize restartSize iopv p
      hp hle hwin hfix
  · exact rr_diag solveH Hold hVecsIn hValsIn sig basisSize restartSize iopv p hp hle
      hlt hwin hfix hBsym hsolve

/-- C3 (witness): the amended theorem applied at a concrete aligned restart
(restartSize = 2, one previous vector at iopv = 0, hVecsPerm the identity,
solve_H instantiated with the 1 x 1 solver). -/
theorem c3_amended_witness :
    (0 < 1 ∧ 0 + 1 ≤ 2) ∧
    rrDiagonalises
      (restartRRModel solve1x1 (fun i j => if i = j then (i : ℚ) + 5 else 0)
        (fun i j => if i = j then 1 else 0) (fun i => (i : ℚ) + 5) (fun i => i)
        2 2 0 1)
      2 :=
  ⟨⟨by decide, by decide⟩,
    (c3_amended solve1x1 (fun i j => if i = j then (i : ℚ) + 5 else 0)
      (fun i j => if i = j then 1 else 0) (fun i => (i : ℚ) + 5) (fun i => i)
      2 2 0 1 (by decide) (by decide) (fun i hi => hi)
      (fun i _ => Iff.rfl) rfl
      (fun i j hi hj => by
        have hi0 : i = 0 := by omega
        have hj0 : j = 0 := by omega
        subst hi0 hj0
        rfl)
      (fun i j hi hj => by
        have hi0 : i = 0 := by omega
        have hj0 : j = 0 := by omega
        subst hi0 hj0
        simp [solve1x1, Finset.sum_range_one])).2.2.2.2⟩

/-- C3 (counterexample): a reachable soft-locking restart (state defined above:
flags [U, C, U, U], one retained previous vector, restartSize 2) in which every
sub-phase succeeds and the inserted block is orthonormal against the kept
columns, yet the output of restart_RR does not diagonalise the rebuilt H: the
candidate column was permuted behind the previous vector, hVecsPerm does not
fix the window, a stale unit entry survives in hVecs column 1, and
(H hVecs)(1,1) = 1 while hVals[1] * hVecs(1,1) = 3. -/
theorem c3_counterexample :
    c3scal.indexOfPreviousVecs = 0 ∧ c3scal.numPrevRetained = 1 ∧
    c3scal.restartSize = 2 ∧ c3scal.ret = 0 ∧
    (∑ k in Finset.range 4, c3hVecsMid k 0 * c3hVecsMid k 0) = 1 ∧
    (∑ k in Finset.range 4, c3hVecsMid k 0 * c3hVecsMid k 1) = 0 ∧
    matApplyEntry (symmRep c3out.H) c3out.hVecs 2 1 1 ≠ c3out.hVals 1 * c3out.hVecs 1 1 := by
  have hperm1 : c3perm 1 = 0 := by decide
  have hsig1 : c3sig 1 = 0 := by decide
  have hw : findOrdered c3sig 0 2 = 1 := by decide
  have hcol0 : ∀ a, a < 4 → c3hVecsMid a 0 = (if a = 2 then 1 else 0) := by
    intro a ha
    simp [c3hVecsMid, insertPrevVecs, ha, c3prev]
  have hcol1 : ∀ a, c3hVecsMid a 1 = (if a = 0 then 1 else 0) := by
    intro a
    simp [c3hVecsMid, insertPrevVecs, permute_cols, hperm1, c3hVecsIn, eq_comm]
  have hH00 : restartRR_H c3Hold c3hVecsMid c3hValsMid 4 2 0 1 0 0 = 3 := by
    simp only [restartRR_H, computeSubmatrix]
    norm_num [Finset.sum_range_succ, hcol0, c3Hold]
  have hH01 : restartRR_H c3Hold c3hVecsMid c3hValsMid 4 2 0 1 0 1 = 0 := by
    norm_num [restartRR_H]
  have hH11 : restartRR_H c3Hold c3hVecsMid c3hValsMid 4 2 0 1 1 1 = 1 := by
    norm_num [restartRR_H, c3hValsMid, permute_vecs, hperm1, c3hVals]
  have hvec01 : c3out.hVecs 0 1 = 1 := by
    simp only [c3out, restartRRModel, hw]
    norm_num [hsig1]
  have hvec11 : c3out.hVecs 1 1 = 1 := by
    simp only [c3out, restartRRModel, hw]
    norm_num [solve1x1]
  have hval1 : c3out.hVals 1 = 3 := by
    simp only [c3out, restartRRModel, hw]
    norm_num [solve1x1]
    exact hH00
  have hsH10 : symmRep c3out.H 1 0 = 0 := by
    simp only [c3out, restartRRModel, symmRep]
    norm_num
    exact hH01
  have hsH11 : symmRep c3out.H 1 1 = 1 := by
    simp only [c3out, restartRRModel, symmRep]
    norm_num
    exact hH11
  refine ⟨by decide, by decide, by decide, by decide, ?_, ?_, ?_⟩
  · norm_num [Finset.sum_range_succ, hcol0]
  · norm_num [Finset.sum_range_succ, hcol0, hcol1]
  · rw [matApplyEntry]
    rw [Finset.sum_range_succ, Finset.sum_range_succ, Finset.sum_range_zero]
    rw [hsH10, hsH11, hvec01, hvec11, hval1]
    norm_num
